import Mathlib

/-!
Verification of the Vibration Field Synthesis Engine.

Shallow embedding, over the reals, of the engine's source:
  * the data model from src/types.ts (Harmonic, VibrationComponent,
    MeasurementPoint);
  * the per-axis waveform evaluator calculateComponentDisplacement and the
    inverse-distance interpolation kernel calculateVertexDisplacement from
    the odsMath module;
  * the Lissajous sampler of OrbitWindow.tsx (calcVal, getPeakAmp, the
    sampling loop over 0..720 and the auto-scale);
  * the per-frame clock advance of DeformableMesh / DynamicVector
    (if isPlaying then time := time + delta).
JavaScript numbers are modelled as real numbers; optional fields as Option.
-/

namespace VibSim

/-- From src/types.ts: a harmonic of the fundamental. -/
structure Harmonic where
  order : ℝ
  amplitudeRatio : ℝ
  phaseShift : ℝ

/-- From src/types.ts: one measurement axis's waveform parameters.
The harmonics list and the noise amplitude are optional fields. -/
structure VibrationComponent where
  amplitude : ℝ
  phase : ℝ
  harmonics : Option (List Harmonic)
  noise : Option ℝ

/-- A 3D vector (models THREE.Vector3 as used by the kernel). -/
structure Vec3 where
  x : ℝ
  y : ℝ
  z : ℝ

/-- From src/types.ts: a sensor with a static position and three axis
components. -/
structure MeasurementPoint where
  id : String
  label : String
  position : Vec3
  horizontal : VibrationComponent
  vertical : VibrationComponent
  axial : VibrationComponent
  isReference : Option Bool

/-- odsMath: instantaneous displacement of a single vibration component.
Follows the source exactly: fundamental, then the harmonics loop (guarded
by the list being present and nonempty), then the noise term (guarded by
the JS-truthy noise field being positive), finally scaled by
globalGain * scalar. -/
noncomputable def calculateComponentDisplacement
    (comp : VibrationComponent) (omega t globalGain scalar : ℝ) : ℝ :=
  let ang1 := omega * t + comp.phase * Real.pi / 180
  let val0 := Real.sin ang1 * comp.amplitude
  let val1 :=
    match comp.harmonics with
    | some hs =>
        if 0 < hs.length then
          hs.foldl
            (fun v h =>
              v + Real.sin (omega * h.order * t +
                    (comp.phase + h.phaseShift) * Real.pi / 180) *
                  (comp.amplitude * h.amplitudeRatio))
            val0
        else val0
    | none => val0
  let val2 :=
    match comp.noise with
    | some n =>
        if 0 < n then
          val1 + (Real.sin (omega * 25.0 * t) +
                   0.5 * Real.sin (omega * 25.0 * 1.3 * t)) * n
        else val1
    | none => val1
  val2 * globalGain * scalar

/-- The per-harmonic term of the source's harmonics loop. -/
noncomputable def harmonicTerm
    (comp : VibrationComponent) (omega t : ℝ) (h : Harmonic) : ℝ :=
  Real.sin (omega * h.order * t + (comp.phase + h.phaseShift) * Real.pi / 180) *
    (comp.amplitude * h.amplitudeRatio)

/-- Accumulating a list with foldl equals the initial value plus the sum. -/
lemma foldl_add_eq_sum {α : Type} (f : α → ℝ) (l : List α) (v : ℝ) :
    l.foldl (fun acc a => acc + f a) v = v + (l.map f).sum := by
  induction l generalizing v with
  | nil => simp
  | cons a l ih => simp [ih, add_assoc]

/-- Closed form of the component evaluator: fundamental plus the sum of
harmonic terms plus the (guarded) noise term, all times gain and scalar. -/
lemma calculateComponentDisplacement_eq
    (comp : VibrationComponent) (omega t globalGain scalar : ℝ) :
    calculateComponentDisplacement comp omega t globalGain scalar =
      (Real.sin (omega * t + comp.phase * Real.pi / 180) * comp.amplitude +
        ((comp.harmonics.getD []).map (harmonicTerm comp omega t)).sum +
        (match comp.noise with
          | some n =>
              if 0 < n then
                (Real.sin (omega * 25.0 * t) +
                  0.5 * Real.sin (omega * 25.0 * 1.3 * t)) * n
              else 0
          | none => 0)) * globalGain * scalar := by
  have hfold : ∀ (hs : List Harmonic) (v0 : ℝ),
      (if 0 < hs.length then
        hs.foldl
          (fun v h =>
            v + Real.sin (omega * h.order * t +
                  (comp.phase + h.phaseShift) * Real.pi / 180) *
                (comp.amplitude * h.amplitudeRatio))
          v0
       else v0) = v0 + (hs.map (harmonicTerm comp omega t)).sum := by
    intro hs v0
    by_cases hlen : 0 < hs.length
    · rw [if_pos hlen]
      have h1 := foldl_add_eq_sum (harmonicTerm comp omega t) hs v0
      simp only [harmonicTerm] at h1
      exact h1
    · rw [if_neg hlen]
      have hnil : hs = [] := List.length_eq_zero.mp (by omega)
      subst hnil
      simp
  unfold calculateComponentDisplacement
  cases hh : comp.harmonics with
  | none =>
      cases hn : comp.noise with
      | none =>
          dsimp only [Option.getD_none, List.map_nil, List.sum_nil]
          ring
      | some n =>
          dsimp only [Option.getD_none, List.map_nil, List.sum_nil]
          by_cases h0 : 0 < n
          · rw [if_pos h0, if_pos h0]
            ring
          · rw [if_neg h0, if_neg h0]
            ring
  | some hs =>
      cases hn : comp.noise with
      | none =>
          dsimp only [Option.getD_some]
          rw [hfold hs]
          ring
      | some n =>
          dsimp only [Option.getD_some]
          rw [hfold hs]
          by_cases h0 : 0 < n
          · rw [if_pos h0, if_pos h0]
          · rw [if_neg h0, if_neg h0]
            ring

/-- Claim C1: for every VibrationComponent, angular velocity and time, the
evaluated waveform is, summed in the fixed order, the fundamental
`amplitude * sin(omega*t + phase_rad)`, plus for each harmonic
`amplitude * ratio * sin(omega*order*t + (phase+shift)_rad)`, plus, exactly
when the noise field is present and positive,
`noise * (sin(25*omega*t) + 0.5*sin(25*1.3*omega*t))`; the harmonic
formula is the same for fractional and sub-synchronous orders. -/
theorem component_waveform_formula
    (comp : VibrationComponent) (omega t globalGain scalar : ℝ) :
    calculateComponentDisplacement comp omega t globalGain scalar =
      (comp.amplitude * Real.sin (omega * t + comp.phase * Real.pi / 180) +
        ((comp.harmonics.getD []).map
          (fun h => comp.amplitude * h.amplitudeRatio *
            Real.sin (omega * h.order * t +
              (comp.phase + h.phaseShift) * Real.pi / 180))).sum +
        (if 0 < (comp.noise.getD 0) then
          (comp.noise.getD 0) *
            (Real.sin (25 * omega * t) + 0.5 * Real.sin (25 * 1.3 * omega * t))
         else 0)) * globalGain * scalar := by
  rw [calculateComponentDisplacement_eq]
  have hterm : harmonicTerm comp omega t =
      fun h => comp.amplitude * h.amplitudeRatio *
        Real.sin (omega * h.order * t +
          (comp.phase + h.phaseShift) * Real.pi / 180) := by
    funext h; unfold harmonicTerm; ring
  rw [hterm]
  cases hn : comp.noise with
  | none =>
      dsimp only [Option.getD_none]
      rw [if_neg (lt_irrefl (0 : ℝ))]
      ring
  | some n =>
      dsimp only [Option.getD_some]
      by_cases h0 : 0 < n
      · rw [if_pos h0, if_pos h0]
        rw [show omega * 25.0 * t = 25 * omega * t from by ring,
            show omega * 25.0 * 1.3 * t = 25 * 1.3 * omega * t from by ring]
        ring
      · rw [if_neg h0, if_neg h0]
        ring

namespace OrbitWindow

/-- OrbitWindow.tsx calcVal: the Lissajous sampler's per-axis waveform.
Fundamental plus the harmonics loop; the source version has no noise term
and no angular-velocity factor (t is already in radians). -/
noncomputable def calcVal (comp : VibrationComponent) (t : ℝ) : ℝ :=
  let v0 := comp.amplitude * Real.sin (t + comp.phase * Real.pi / 180)
  match comp.harmonics with
  | some hs =>
      hs.foldl
        (fun v h =>
          v + comp.amplitude * h.amplitudeRatio *
            Real.sin (t * h.order + (comp.phase + h.phaseShift) * Real.pi / 180))
        v0
  | none => v0

/-- OrbitWindow.tsx: const numCycles = 2. -/
noncomputable def numCycles : ℝ := 2

/-- OrbitWindow.tsx: const points = 720. -/
def points : ℕ := 720

/-- OrbitWindow.tsx: const duration = numCycles * 2 * Math.PI. -/
noncomputable def duration : ℝ := numCycles * 2 * Real.pi

/-- The parameter of sample i: t = (i / points) * duration. -/
noncomputable def orbitT (i : ℕ) : ℝ := ((i : ℝ) / (points : ℝ)) * duration

/-- The sampling loop runs for i = 0, 1, ..., points (inclusive), producing
the pair (calcVal probeX t, calcVal probeY t) at each step. -/
noncomputable def orbitSamples (probeX probeY : VibrationComponent) :
    List (ℝ × ℝ) :=
  (List.range (points + 1)).map
    (fun i => (calcVal probeX (orbitT i), calcVal probeY (orbitT i)))

/-- OrbitWindow.tsx getPeakAmp: conservative peak envelope
amplitude + sum of amplitude*ratio over harmonics, plus the (JS-truthy
guarded) noise amplitude. -/
noncomputable def getPeakAmp (comp : VibrationComponent) : ℝ :=
  let peak0 := comp.amplitude
  let peak1 :=
    match comp.harmonics with
    | some hs =>
        hs.foldl (fun pk h => pk + comp.amplitude * h.amplitudeRatio) peak0
    | none => peak0
  match comp.noise with
  | some n => if n = 0 then peak1 else peak1 + n
  | none => peak1

/-- Canvas width (the canvas element is 400 x 400). -/
noncomputable def width : ℝ := 400

/-- Canvas height. -/
noncomputable def height : ℝ := 400

/-- centerX = width / 2. -/
noncomputable def centerX : ℝ := width / 2

/-- centerY = height / 2. -/
noncomputable def centerY : ℝ := height / 2

/-- maxAmp = max(getPeakAmp(probeX), getPeakAmp(probeY)) * 1.5. -/
noncomputable def maxAmp (probeX probeY : VibrationComponent) : ℝ :=
  max (getPeakAmp probeX) (getPeakAmp probeY) * 1.5

/-- scale = (width * 0.4) / (maxAmp or 1 when maxAmp is zero). -/
noncomputable def scale (probeX probeY : VibrationComponent) : ℝ :=
  width * 0.4 / (if maxAmp probeX probeY = 0 then 1 else maxAmp probeX probeY)

/-- The plotted canvas coordinates of sample i:
(centerX + valX * scale, centerY - valY * scale). -/
noncomputable def plottedSamples (probeX probeY : VibrationComponent) :
    List (ℝ × ℝ) :=
  (List.range (points + 1)).map
    (fun i =>
      (centerX + calcVal probeX (orbitT i) * scale probeX probeY,
       centerY - calcVal probeY (orbitT i) * scale probeX probeY))

/-- Closed form of calcVal: fundamental plus the sum of harmonic terms. -/
lemma calcVal_eq (comp : VibrationComponent) (t : ℝ) :
    calcVal comp t =
      comp.amplitude * Real.sin (t + comp.phase * Real.pi / 180) +
        ((comp.harmonics.getD []).map
          (fun h => comp.amplitude * h.amplitudeRatio *
            Real.sin (t * h.order +
              (comp.phase + h.phaseShift) * Real.pi / 180))).sum := by
  unfold calcVal
  cases hh : comp.harmonics with
  | none => simp
  | some hs =>
      dsimp only [Option.getD_some]
      exact foldl_add_eq_sum _ hs _

/-- calcVal is the component model with angular velocity 1, unit gain and
scalar, and the noise term removed. -/
lemma calcVal_eq_component (comp : VibrationComponent) (t : ℝ) :
    calcVal comp t =
      calculateComponentDisplacement { comp with noise := none } 1 t 1 1 := by
  rw [calcVal_eq, calculateComponentDisplacement_eq]
  dsimp only
  have hmap :
      (fun h : Harmonic => comp.amplitude * h.amplitudeRatio *
        Real.sin (t * h.order + (comp.phase + h.phaseShift) * Real.pi / 180)) =
      harmonicTerm { comp with noise := none } 1 t := by
    funext h
    unfold harmonicTerm
    rw [show t * h.order + (comp.phase + h.phaseShift) * Real.pi / 180 =
        1 * h.order * t + (comp.phase + h.phaseShift) * Real.pi / 180 from by
      ring]
    ring
  rw [hmap]
  rw [show (1 : ℝ) * t + comp.phase * Real.pi / 180 =
      t + comp.phase * Real.pi / 180 from by ring]
  ring

/-- A probe that is pure noise: amplitude 0, no harmonics, noise 1. -/
noncomputable def noisyProbe : VibrationComponent :=
  { amplitude := 0, phase := 0, harmonics := some [], noise := some 1 }

end OrbitWindow

/-- Claim C2 counterexample: the sampling loop emits 721 samples, not
exactly 720, and the sampler's evaluate (calcVal) differs from the §4.1
component model at angular velocity 1 because the noise term is omitted:
for a pure-noise probe at t = pi/2 calcVal gives 0 while the component
model gives 1 + sqrt 2 / 4. -/
theorem lissajous_sampler_claim_counterexample :
    (OrbitWindow.orbitSamples OrbitWindow.noisyProbe
        OrbitWindow.noisyProbe).length = 721 ∧
    (721 : ℕ) ≠ 720 ∧
    OrbitWindow.calcVal OrbitWindow.noisyProbe (Real.pi / 2) ≠
      calculateComponentDisplacement OrbitWindow.noisyProbe 1 (Real.pi / 2)
        1 1 := by
  refine ⟨?_, by norm_num, ?_⟩
  · simp [OrbitWindow.orbitSamples, OrbitWindow.points]
  · have hL : OrbitWindow.calcVal OrbitWindow.noisyProbe (Real.pi / 2) = 0 := by
      rw [OrbitWindow.calcVal_eq]
      simp [OrbitWindow.noisyProbe]
    have h25 : Real.sin (1 * 25.0 * (Real.pi / 2)) = 1 := by
      rw [show (1 : ℝ) * 25.0 * (Real.pi / 2) =
          Real.pi / 2 + (6 : ℕ) * (2 * Real.pi) from by push_cast; ring]
      rw [Real.sin_add_nat_mul_two_pi, Real.sin_pi_div_two]
    have h325 : Real.sin (1 * 25.0 * 1.3 * (Real.pi / 2)) = Real.sqrt 2 / 2 := by
      rw [show (1 : ℝ) * 25.0 * 1.3 * (Real.pi / 2) =
          Real.pi / 4 + (8 : ℕ) * (2 * Real.pi) from by push_cast; ring]
      rw [Real.sin_add_nat_mul_two_pi, Real.sin_pi_div_four]
    have hR : calculateComponentDisplacement OrbitWindow.noisyProbe 1
        (Real.pi / 2) 1 1 = 1 + Real.sqrt 2 / 4 := by
      rw [calculateComponentDisplacement_eq]
      simp only [OrbitWindow.noisyProbe, Option.getD_some, List.map_nil,
        List.sum_nil, zero_lt_one, if_true, h25, h325]
      ring
    rw [hL, hR]
    have h2 : (0 : ℝ) ≤ Real.sqrt 2 := Real.sqrt_nonneg 2
    intro habs
    nlinarith

/-- Claim C2 (amended): for the default settings (720 sample divisions,
2 cycles) the sampling loop emits 721 samples, for i = 0..720 inclusive,
with parameter t = (i/720) * (2 * 2 * pi) covering [0, 2 * 2 * pi]
including the right endpoint; sample i is
(calcVal probeX t_i, calcVal probeY t_i), and calcVal is the §4.1
component model evaluated with angular velocity 1, unit gain and unit
scalar, but with the noise term omitted. -/
theorem lissajous_sampler_amended (probeX probeY : VibrationComponent) :
    (OrbitWindow.orbitSamples probeX probeY).length =
      OrbitWindow.points + 1 ∧
    OrbitWindow.orbitT 0 = 0 ∧
    OrbitWindow.orbitT OrbitWindow.points = OrbitWindow.numCycles *
      (2 * Real.pi) ∧
    (∀ i : ℕ, i < OrbitWindow.points + 1 →
      (OrbitWindow.orbitSamples probeX probeY).getD i (0, 0) =
        (OrbitWindow.calcVal probeX (OrbitWindow.orbitT i),
         OrbitWindow.calcVal probeY (OrbitWindow.orbitT i))) ∧
    (∀ (c : VibrationComponent) (t : ℝ),
      OrbitWindow.calcVal c t =
        calculateComponentDisplacement { c with noise := none } 1 t 1 1) := by
  refine ⟨?_, ?_, ?_, ?_, ?_⟩
  · simp [OrbitWindow.orbitSamples]
  · simp [OrbitWindow.orbitT]
  · rw [OrbitWindow.orbitT, OrbitWindow.duration]
    rw [show ((OrbitWindow.points : ℝ)) / (OrbitWindow.points : ℝ) = 1 from by
      rw [div_self]; simp [OrbitWindow.points]]
    ring
  · intro i hi
    have hlen : i < (OrbitWindow.orbitSamples probeX probeY).length := by
      simpa [OrbitWindow.orbitSamples] using hi
    rw [List.getD_eq_getElem _ _ hlen]
    simp [OrbitWindow.orbitSamples]
  · intro c t
    exact OrbitWindow.calcVal_eq_component c t

/-- odsMath: the physical-unit-to-scene-unit scalar, const SCALAR = 0.015. -/
noncomputable def SCALAR : ℝ := 0.015

/-- odsMath: Euclidean distance from the query point to a sensor's rest
position (dist = sqrt(dx*dx + dy*dy + dz*dz)). -/
noncomputable def sensorDist (x y z : ℝ) (p : MeasurementPoint) : ℝ :=
  Real.sqrt ((x - p.position.x) * (x - p.position.x) +
    (y - p.position.y) * (y - p.position.y) +
    (z - p.position.z) * (z - p.position.z))

/-- odsMath: the inverse-distance weight 1.0 / (dist^power + 0.1) with
power = 3.5. -/
noncomputable def invDistWeight (d : ℝ) : ℝ := 1 / (d ^ (3.5 : ℝ) + 0.1)

/-- The weight a sensor receives for a given query point. -/
noncomputable def sensorWeight (x y z : ℝ) (p : MeasurementPoint) : ℝ :=
  invDistWeight (sensorDist x y z p)

/-- One iteration of the kernel's sensor loop: accumulate the weighted
per-axis magnitudes into the displacement vector and the weight into the
total weight. -/
noncomputable def kernelStep (x y z omega t globalGain : ℝ)
    (acc : Vec3 × ℝ) (p : MeasurementPoint) : Vec3 × ℝ :=
  let weight := sensorWeight x y z p
  let magH := calculateComponentDisplacement p.horizontal omega t globalGain SCALAR
  let magV := calculateComponentDisplacement p.vertical omega t globalGain SCALAR
  let magA := calculateComponentDisplacement p.axial omega t globalGain SCALAR
  (⟨acc.1.x + magH * weight, acc.1.y + magV * weight, acc.1.z + magA * weight⟩,
    acc.2 + weight)

/-- The accumulated total weight of the kernel's loop. -/
noncomputable def kernelTotalWeight (x y z omega t globalGain : ℝ)
    (pts : List MeasurementPoint) : ℝ :=
  (pts.foldl (kernelStep x y z omega t globalGain) (⟨0, 0, 0⟩, 0)).2

/-- odsMath calculateVertexDisplacement: omega from animationRpm, the
weighted accumulation loop, and the final division by the total weight
when it is positive. -/
noncomputable def calculateVertexDisplacement (x y z t animationRpm : ℝ)
    (pts : List MeasurementPoint) (globalGain : ℝ) : Vec3 :=
  let omega := animationRpm * 2 * Real.pi / 60
  let res := pts.foldl (kernelStep x y z omega t globalGain) (⟨0, 0, 0⟩, 0)
  if 0 < res.2 then ⟨res.1.x / res.2, res.1.y / res.2, res.1.z / res.2⟩
  else res.1

/-- Closed form of the kernel's accumulation loop. -/
lemma kernel_foldl_eq (x y z omega t g : ℝ) (pts : List MeasurementPoint)
    (v : Vec3) (w : ℝ) :
    pts.foldl (kernelStep x y z omega t g) (v, w) =
      (⟨v.x + (pts.map (fun p =>
          calculateComponentDisplacement p.horizontal omega t g SCALAR *
            sensorWeight x y z p)).sum,
        v.y + (pts.map (fun p =>
          calculateComponentDisplacement p.vertical omega t g SCALAR *
            sensorWeight x y z p)).sum,
        v.z + (pts.map (fun p =>
          calculateComponentDisplacement p.axial omega t g SCALAR *
            sensorWeight x y z p)).sum⟩,
       w + (pts.map (fun p => sensorWeight x y z p)).sum) := by
  induction pts generalizing v w with
  | nil => simp
  | cons p ps ih =>
      rw [List.foldl_cons, kernelStep, ih]
      simp only [List.map_cons, List.sum_cons, Prod.mk.injEq, Vec3.mk.injEq]
      refine ⟨⟨?_, ?_, ?_⟩, ?_⟩ <;> ring

/-- Witness for the amended C2 theorem at a concrete probe pair and index. -/
theorem lissajous_sampler_amended_witness :
    (0 : ℕ) < OrbitWindow.points + 1 ∧
    (OrbitWindow.orbitSamples OrbitWindow.noisyProbe
        OrbitWindow.noisyProbe).getD 0 (0, 0) =
      (OrbitWindow.calcVal OrbitWindow.noisyProbe (OrbitWindow.orbitT 0),
       OrbitWindow.calcVal OrbitWindow.noisyProbe (OrbitWindow.orbitT 0)) :=
  ⟨by norm_num,
    (lissajous_sampler_amended OrbitWindow.noisyProbe
      OrbitWindow.noisyProbe).2.2.2.1 0 (by norm_num)⟩

/-- Every inverse-distance weight is strictly positive for d >= 0. -/
lemma invDistWeight_pos {d : ℝ} (hd : 0 ≤ d) : 0 < invDistWeight d := by
  have h1 : (0 : ℝ) ≤ d ^ (3.5 : ℝ) := Real.rpow_nonneg hd _
  have h2 : (0 : ℝ) < d ^ (3.5 : ℝ) + 0.1 := by linarith
  unfold invDistWeight
  exact div_pos (by norm_num) h2

/-- Every sensor's weight is strictly positive. -/
lemma sensorWeight_pos (x y z : ℝ) (p : MeasurementPoint) :
    0 < sensorWeight x y z p :=
  invDistWeight_pos (Real.sqrt_nonneg _)

/-- A concrete single sensor at the origin with unit-amplitude, zero-phase
components (matches the store's createPoint fields). -/
noncomputable def originSensor : MeasurementPoint :=
  { id := "m-de", label := "Motor DE Brg", position := ⟨0, 0, 0⟩,
    horizontal := ⟨1, 0, some [], some 0⟩,
    vertical := ⟨1, 0, some [], some 0⟩,
    axial := ⟨1, 0, some [], some 0⟩,
    isReference := some true }

/-- Claim C3: each per-sensor weight 1/(d^3.5 + 0.1) is strictly positive
for every distance d >= 0, the accumulated total weight is strictly
positive whenever at least one sensor exists (so the final division never
divides by zero), and with an empty roster the kernel returns the exact
zero vector for any query point and time. -/
theorem kernel_never_divides_by_zero :
    (∀ d : ℝ, 0 ≤ d → 0 < invDistWeight d) ∧
    (∀ (x y z omega t g : ℝ) (pts : List MeasurementPoint), pts ≠ [] →
      0 < kernelTotalWeight x y z omega t g pts) ∧
    (∀ x y z t rpm g : ℝ,
      calculateVertexDisplacement x y z t rpm [] g = ⟨0, 0, 0⟩) := by
  refine ⟨fun d hd => invDistWeight_pos hd, ?_, ?_⟩
  · intro x y z omega t g pts hne
    obtain ⟨p, ps, rfl⟩ := List.exists_cons_of_ne_nil hne
    rw [kernelTotalWeight, kernel_foldl_eq]
    have hsum : (0 : ℝ) ≤ (ps.map (fun q => sensorWeight x y z q)).sum := by
      apply List.sum_nonneg
      intro a ha
      obtain ⟨q, _, rfl⟩ := List.mem_map.mp ha
      exact le_of_lt (sensorWeight_pos x y z q)
    have hp := sensorWeight_pos x y z p
    simp only [List.map_cons, List.sum_cons]
    linarith
  · intro x y z t rpm g
    rw [calculateVertexDisplacement]
    simp

/-- Witness for C3 at a concrete distance and a concrete one-sensor roster. -/
theorem kernel_never_divides_by_zero_witness :
    (0 : ℝ) ≤ 0 ∧
    ([originSensor] : List MeasurementPoint) ≠ [] ∧
    0 < invDistWeight 0 ∧
    0 < kernelTotalWeight 0 0 0 1 0 1 [originSensor] :=
  ⟨le_rfl, by simp,
    kernel_never_divides_by_zero.1 0 le_rfl,
    kernel_never_divides_by_zero.2.1 0 0 0 1 0 1 [originSensor] (by simp)⟩

/-- With a single sensor queried at its own position, the kernel reduces
to that sensor's per-axis scaled waveform: the weight cancels. -/
lemma kernel_single_sensor_self (p : MeasurementPoint) (t rpm g : ℝ) :
    calculateVertexDisplacement p.position.x p.position.y p.position.z
        t rpm [p] g =
      ⟨calculateComponentDisplacement p.horizontal
          (rpm * 2 * Real.pi / 60) t g SCALAR,
       calculateComponentDisplacement p.vertical
          (rpm * 2 * Real.pi / 60) t g SCALAR,
       calculateComponentDisplacement p.axial
          (rpm * 2 * Real.pi / 60) t g SCALAR⟩ := by
  have hdist : sensorDist p.position.x p.position.y p.position.z p = 0 := by
    rw [sensorDist]
    simp [sub_self]
  have hw : sensorWeight p.position.x p.position.y p.position.z p = 10 := by
    rw [sensorWeight, hdist, invDistWeight, Real.zero_rpow (by norm_num)]
    norm_num
  rw [calculateVertexDisplacement]
  rw [kernel_foldl_eq]
  simp only [List.map_cons, List.map_nil, List.sum_cons, List.sum_nil, hw]
  rw [if_pos (by norm_num : (0 : ℝ) < 0 + (10 + 0))]
  have hcancel : ∀ m : ℝ, (0 + (m * 10 + 0)) / (0 + (10 + 0)) = m := by
    intro m
    field_simp
  rw [Vec3.mk.injEq]
  exact ⟨hcancel _, hcancel _, hcancel _⟩

/-- Claim C4: querying the kernel exactly at the position of the only
sensor returns, on each axis, that sensor's waveform value times
globalGain and the unit scalar 0.015 (no dependence on the weighting
exponent); concretely, for a unit-amplitude zero-phase vertical component
at the origin, animationRpm 60, globalGain 1, t = 0.25 s, the vertical
output is 1 * 0.015. -/
theorem kernel_at_sensor_position :
    (∀ (p : MeasurementPoint) (t rpm g : ℝ),
      calculateVertexDisplacement p.position.x p.position.y p.position.z
          t rpm [p] g =
        ⟨calculateComponentDisplacement p.horizontal
            (rpm * 2 * Real.pi / 60) t g SCALAR,
         calculateComponentDisplacement p.vertical
            (rpm * 2 * Real.pi / 60) t g SCALAR,
         calculateComponentDisplacement p.axial
            (rpm * 2 * Real.pi / 60) t g SCALAR⟩) ∧
    (calculateVertexDisplacement 0 0 0 0.25 60 [originSensor] 1).y =
      1 * 0.015 := by
  refine ⟨kernel_single_sensor_self, ?_⟩
  have h := kernel_single_sensor_self originSensor 0.25 60 1
  have hpos : originSensor.position = ⟨0, 0, 0⟩ := rfl
  rw [hpos] at h
  rw [h]
  dsimp only
  rw [calculateComponentDisplacement_eq]
  have hang : (60 : ℝ) * 2 * Real.pi / 60 * 0.25 +
      originSensor.vertical.phase * Real.pi / 180 = Real.pi / 2 := by
    have : originSensor.vertical.phase = 0 := rfl
    rw [this]
    ring
  rw [hang, Real.sin_pi_div_two]
  have hharm : originSensor.vertical.harmonics = some [] := rfl
  have hnoise : originSensor.vertical.noise = some 0 := rfl
  have hamp : originSensor.vertical.amplitude = 1 := rfl
  rw [hharm, hnoise, hamp]
  simp [SCALAR]

/-- Claim C7: the weight w(d) = 1/(d^3.5 + 0.1) is strictly decreasing on
d >= 0 and strictly positive, so of two otherwise-identical sensors the
closer one's relative contribution (weight over total weight) is strictly
larger. -/
theorem closer_sensor_dominates :
    ∀ d1 d2 : ℝ, 0 ≤ d1 → d1 < d2 →
      0 < invDistWeight d2 ∧
      invDistWeight d2 < invDistWeight d1 ∧
      invDistWeight d2 / (invDistWeight d1 + invDistWeight d2) <
        invDistWeight d1 / (invDistWeight d1 + invDistWeight d2) := by
  intro d1 d2 h1 h12
  have h2 : (0 : ℝ) ≤ d2 := le_trans h1 (le_of_lt h12)
  have hpos2 : 0 < invDistWeight d2 := invDistWeight_pos h2
  have hpos1 : 0 < invDistWeight d1 := invDistWeight_pos h1
  have hrpow : d1 ^ (3.5 : ℝ) < d2 ^ (3.5 : ℝ) :=
    Real.rpow_lt_rpow h1 h12 (by norm_num)
  have hbase : (0 : ℝ) < d1 ^ (3.5 : ℝ) + 0.1 := by
    have := Real.rpow_nonneg h1 (3.5 : ℝ)
    linarith
  have hmono : invDistWeight d2 < invDistWeight d1 := by
    unfold invDistWeight
    exact one_div_lt_one_div_of_lt hbase (by linarith :
      d1 ^ (3.5 : ℝ) + 0.1 < d2 ^ (3.5 : ℝ) + 0.1)
  refine ⟨hpos2, hmono, ?_⟩
  exact (div_lt_div_iff_of_pos_right (by linarith)).mpr hmono

/-- Witness for C7 at distances 0 and 1. -/
theorem closer_sensor_dominates_witness :
    (0 : ℝ) ≤ 0 ∧ (0 : ℝ) < 1 ∧
    invDistWeight 1 < invDistWeight 0 :=
  ⟨le_rfl, by norm_num,
    (closer_sensor_dominates 0 1 le_rfl (by norm_num)).2.1⟩

/-- The component evaluator is linear in the global gain. -/
lemma calculateComponentDisplacement_gain (comp : VibrationComponent)
    (omega t g s : ℝ) :
    calculateComponentDisplacement comp omega t g s =
      g * calculateComponentDisplacement comp omega t 1 s := by
  unfold calculateComponentDisplacement
  dsimp only
  ring

/-- Claim C10: the kernel's output is homogeneous in globalGain: evaluating
with gain g equals g times the evaluation with gain 1, on each axis. -/
theorem kernel_gain_homogeneous :
    ∀ (x y z t rpm : ℝ) (pts : List MeasurementPoint) (g : ℝ),
      (calculateVertexDisplacement x y z t rpm pts g).x =
        g * (calculateVertexDisplacement x y z t rpm pts 1).x ∧
      (calculateVertexDisplacement x y z t rpm pts g).y =
        g * (calculateVertexDisplacement x y z t rpm pts 1).y ∧
      (calculateVertexDisplacement x y z t rpm pts g).z =
        g * (calculateVertexDisplacement x y z t rpm pts 1).z := by
  intro x y z t rpm pts g
  rw [calculateVertexDisplacement, calculateVertexDisplacement]
  rw [kernel_foldl_eq, kernel_foldl_eq]
  have hmapH : (pts.map (fun p =>
      calculateComponentDisplacement p.horizontal
        (rpm * 2 * Real.pi / 60) t g SCALAR * sensorWeight x y z p)).sum =
      g * (pts.map (fun p =>
      calculateComponentDisplacement p.horizontal
        (rpm * 2 * Real.pi / 60) t 1 SCALAR * sensorWeight x y z p)).sum := by
    rw [← List.sum_map_mul_left]
    congr 1
    apply List.map_congr_left
    intro p _
    rw [calculateComponentDisplacement_gain]
    ring
  have hmapV : (pts.map (fun p =>
      calculateComponentDisplacement p.vertical
        (rpm * 2 * Real.pi / 60) t g SCALAR * sensorWeight x y z p)).sum =
      g * (pts.map (fun p =>
      calculateComponentDisplacement p.vertical
        (rpm * 2 * Real.pi / 60) t 1 SCALAR * sensorWeight x y z p)).sum := by
    rw [← List.sum_map_mul_left]
    congr 1
    apply List.map_congr_left
    intro p _
    rw [calculateComponentDisplacement_gain]
    ring
  have hmapA : (pts.map (fun p =>
      calculateComponentDisplacement p.axial
        (rpm * 2 * Real.pi / 60) t g SCALAR * sensorWeight x y z p)).sum =
      g * (pts.map (fun p =>
      calculateComponentDisplacement p.axial
        (rpm * 2 * Real.pi / 60) t 1 SCALAR * sensorWeight x y z p)).sum := by
    rw [← List.sum_map_mul_left]
    congr 1
    apply List.map_congr_left
    intro p _
    rw [calculateComponentDisplacement_gain]
    ring
  rw [hmapH, hmapV, hmapA]
  by_cases hW : (0 : ℝ) <
      0 + (pts.map (fun p => sensorWeight x y z p)).sum
  · rw [if_pos hW, if_pos hW]
    exact ⟨by ring, by ring, by ring⟩
  · rw [if_neg hW, if_neg hW]
    exact ⟨by ring, by ring, by ring⟩

/-- Claim C5: permuting the harmonics list leaves the evaluated result
unchanged, exactly, for every fundamental parameter set, angular velocity,
time, gain and scalar. -/
theorem harmonics_order_invariant (a phi : ℝ) (n : Option ℝ)
    (l1 l2 : List Harmonic) (omega t g s : ℝ) (hp : l1.Perm l2) :
    calculateComponentDisplacement ⟨a, phi, some l1, n⟩ omega t g s =
      calculateComponentDisplacement ⟨a, phi, some l2, n⟩ omega t g s := by
  rw [calculateComponentDisplacement_eq, calculateComponentDisplacement_eq]
  have hterm : harmonicTerm ⟨a, phi, some l1, n⟩ omega t =
      harmonicTerm ⟨a, phi, some l2, n⟩ omega t := by
    funext h
    rfl
  dsimp only [Option.getD_some]
  rw [hterm]
  rw [(hp.map (harmonicTerm ⟨a, phi, some l2, n⟩ omega t)).sum_eq]

/-- A concrete 2X harmonic. -/
noncomputable def harm2X : Harmonic := ⟨2, 0.5, 90⟩

/-- A concrete 3X harmonic. -/
noncomputable def harm3X : Harmonic := ⟨3, 0.25, 45⟩

/-- Witness for C5: a concrete swap of a two-harmonic list. -/
theorem harmonics_order_invariant_witness :
    ([harm2X, harm3X] : List Harmonic).Perm [harm3X, harm2X] ∧
    calculateComponentDisplacement ⟨1, 0, some [harm2X, harm3X], none⟩
        1 1 1 1 =
      calculateComponentDisplacement ⟨1, 0, some [harm3X, harm2X], none⟩
        1 1 1 1 :=
  ⟨List.Perm.swap harm3X harm2X [],
    harmonics_order_invariant 1 0 none [harm2X, harm3X] [harm3X, harm2X]
      1 1 1 1 (List.Perm.swap harm3X harm2X [])⟩

/-- Claim C9: a component with the optional harmonics field absent
evaluates exactly as with an explicit empty list, a component with the
optional noise field absent evaluates exactly as with noise zero, and both
absences together equal the explicit empty-list, zero-noise component, for
every angular velocity, time, gain and scalar; evaluation is total. -/
theorem optional_fields_default (a phi : ℝ) (hs : Option (List Harmonic))
    (n : Option ℝ) (omega t g s : ℝ) :
    calculateComponentDisplacement ⟨a, phi, none, n⟩ omega t g s =
      calculateComponentDisplacement ⟨a, phi, some [], n⟩ omega t g s ∧
    calculateComponentDisplacement ⟨a, phi, hs, none⟩ omega t g s =
      calculateComponentDisplacement ⟨a, phi, hs, some 0⟩ omega t g s ∧
    calculateComponentDisplacement ⟨a, phi, none, none⟩ omega t g s =
      calculateComponentDisplacement ⟨a, phi, some [], some 0⟩ omega t g s := by
  refine ⟨?_, ?_, ?_⟩
  · rw [calculateComponentDisplacement_eq, calculateComponentDisplacement_eq]
    simp
  · rw [calculateComponentDisplacement_eq, calculateComponentDisplacement_eq]
    have hterm : harmonicTerm ⟨a, phi, hs, none⟩ omega t =
        harmonicTerm ⟨a, phi, hs, some 0⟩ omega t := by
      funext h
      rfl
    rw [hterm]
    simp
  · rw [calculateComponentDisplacement_eq, calculateComponentDisplacement_eq]
    simp

/-- OrbitWindow / Vectors useFrame body: if isPlaying, add the frame delta
to the accumulated clock; otherwise leave it unchanged. -/
noncomputable def tickClock (isPlaying : Bool) (clock delta : ℝ) : ℝ :=
  if isPlaying then clock + delta else clock

/-- A sequence of evaluation ticks, each with a play flag and a delta. -/
noncomputable def runTicks (clock : ℝ) (ticks : List (Bool × ℝ)) : ℝ :=
  ticks.foldl (fun c p => tickClock p.1 c p.2) clock

/-- Claim C8: a Running tick advances the clock by exactly its delta, a
Paused tick leaves it unchanged, and over any sequence of ticks with
non-negative deltas the clock is monotone non-decreasing. -/
theorem clock_monotone :
    (∀ c d : ℝ, tickClock true c d = c + d) ∧
    (∀ c d : ℝ, tickClock false c d = c) ∧
    (∀ (c : ℝ) (ticks : List (Bool × ℝ)),
      (∀ p ∈ ticks, 0 ≤ p.2) → c ≤ runTicks c ticks) := by
  refine ⟨fun c d => rfl, fun c d => rfl, ?_⟩
  intro c ticks
  induction ticks generalizing c with
  | nil => intro _; exact le_rfl
  | cons p ps ih =>
      intro hnn
      have hstep : c ≤ tickClock p.1 c p.2 := by
        rcases p with ⟨b, d⟩
        have hd : (0 : ℝ) ≤ d := hnn (b, d) (List.mem_cons_self _ _)
        cases b with
        | true => simp [tickClock]; linarith
        | false => simp [tickClock]
      have htail := ih (tickClock p.1 c p.2)
        (fun q hq => hnn q (List.mem_cons_of_mem _ hq))
      calc c ≤ tickClock p.1 c p.2 := hstep
        _ ≤ runTicks (tickClock p.1 c p.2) ps := htail
        _ = runTicks c (p :: ps) := rfl

/-- Witness for C8: a concrete play/pause tick sequence with non-negative
deltas. -/
theorem clock_monotone_witness :
    (∀ p ∈ ([(true, 1), (false, 2), (true, 0.5)] : List (Bool × ℝ)),
      0 ≤ p.2) ∧
    (0 : ℝ) ≤ runTicks 0 [(true, 1), (false, 2), (true, 0.5)] := by
  have hnn : ∀ p ∈ ([(true, 1), (false, 2), (true, 0.5)] : List (Bool × ℝ)),
      (0 : ℝ) ≤ p.2 := by
    intro p hp
    fin_cases hp <;> norm_num
  exact ⟨hnn, clock_monotone.2.2 0 _ hnn⟩

/-- The non-negativity conditions of claim C6: non-negative amplitude,
non-negative amplitude ratios, non-negative noise. -/
def NonnegComp (c : VibrationComponent) : Prop :=
  0 ≤ c.amplitude ∧ (∀ h ∈ c.harmonics.getD [], 0 ≤ h.amplitudeRatio) ∧
    0 ≤ c.noise.getD 0

/-- Closed form of getPeakAmp. -/
lemma getPeakAmp_eq (c : VibrationComponent) :
    OrbitWindow.getPeakAmp c =
      c.amplitude +
        ((c.harmonics.getD []).map
          (fun h => c.amplitude * h.amplitudeRatio)).sum +
        (match c.noise with
          | some n => if n = 0 then 0 else n
          | none => 0) := by
  unfold OrbitWindow.getPeakAmp
  cases hh : c.harmonics with
  | none =>
      dsimp only [Option.getD_none, List.map_nil, List.sum_nil]
      cases hn : c.noise with
      | none => ring
      | some n =>
          dsimp only
          by_cases h0 : n = 0
          · rw [if_pos h0, if_pos h0]
            ring
          · rw [if_neg h0, if_neg h0]
            ring
  | some hs =>
      dsimp only [Option.getD_some]
      rw [foldl_add_eq_sum (fun h => c.amplitude * h.amplitudeRatio) hs
        c.amplitude]
      cases hn : c.noise with
      | none => ring
      | some n =>
          dsimp only
          by_cases h0 : n = 0
          · rw [if_pos h0, if_pos h0]
            ring
          · rw [if_neg h0, if_neg h0]

/-- Triangle inequality for a mapped list sum. -/
lemma abs_map_sum_le {α : Type} (l : List α) (f g : α → ℝ)
    (h : ∀ x ∈ l, |f x| ≤ g x) : |(l.map f).sum| ≤ (l.map g).sum := by
  induction l with
  | nil => simp
  | cons a l ih =>
      simp only [List.map_cons, List.sum_cons]
      calc |f a + (l.map f).sum| ≤ |f a| + |(l.map f).sum| := abs_add _ _
        _ ≤ g a + (l.map g).sum :=
            add_le_add (h a (List.mem_cons_self _ _))
              (ih fun x hx => h x (List.mem_cons_of_mem _ hx))

/-- The sampled waveform never exceeds the conservative peak envelope. -/
lemma abs_calcVal_le_peak (c : VibrationComponent) (hc : NonnegComp c)
    (t : ℝ) : |OrbitWindow.calcVal c t| ≤ OrbitWindow.getPeakAmp c := by
  obtain ⟨ha, hr, hn⟩ := hc
  rw [OrbitWindow.calcVal_eq, getPeakAmp_eq]
  have hsin : ∀ u : ℝ, |Real.sin u| ≤ 1 := fun u =>
    abs_le.mpr ⟨Real.neg_one_le_sin u, Real.sin_le_one u⟩
  have h1 : |c.amplitude * Real.sin (t + c.phase * Real.pi / 180)| ≤
      c.amplitude := by
    rw [abs_mul, abs_of_nonneg ha]
    calc c.amplitude * |Real.sin (t + c.phase * Real.pi / 180)| ≤
        c.amplitude * 1 := mul_le_mul_of_nonneg_left (hsin _) ha
      _ = c.amplitude := mul_one _
  have h2 : |((c.harmonics.getD []).map
      (fun h => c.amplitude * h.amplitudeRatio *
        Real.sin (t * h.order +
          (c.phase + h.phaseShift) * Real.pi / 180))).sum| ≤
      ((c.harmonics.getD []).map
        (fun h => c.amplitude * h.amplitudeRatio)).sum := by
    apply abs_map_sum_le
    intro x hx
    have hrx : 0 ≤ c.amplitude * x.amplitudeRatio :=
      mul_nonneg ha (hr x hx)
    rw [abs_mul, abs_of_nonneg hrx]
    calc c.amplitude * x.amplitudeRatio *
        |Real.sin (t * x.order + (c.phase + x.phaseShift) * Real.pi / 180)| ≤
        c.amplitude * x.amplitudeRatio * 1 :=
          mul_le_mul_of_nonneg_left (hsin _) hrx
      _ = c.amplitude * x.amplitudeRatio := mul_one _
  have h3 : (0 : ℝ) ≤ (match c.noise with
      | some n => if n = 0 then 0 else n
      | none => 0) := by
    cases hcn : c.noise with
    | none => exact le_rfl
    | some n =>
        have hn0 : (0 : ℝ) ≤ n := by
          rw [hcn] at hn
          simpa using hn
        dsimp only
        by_cases h0 : n = 0
        · rw [if_pos h0]
        · rw [if_neg h0]
          exact hn0
  calc |c.amplitude * Real.sin (t + c.phase * Real.pi / 180) +
      ((c.harmonics.getD []).map
        (fun h => c.amplitude * h.amplitudeRatio *
          Real.sin (t * h.order +
            (c.phase + h.phaseShift) * Real.pi / 180))).sum| ≤
      |c.amplitude * Real.sin (t + c.phase * Real.pi / 180)| +
      |((c.harmonics.getD []).map
        (fun h => c.amplitude * h.amplitudeRatio *
          Real.sin (t * h.order +
            (c.phase + h.phaseShift) * Real.pi / 180))).sum| := abs_add _ _
    _ ≤ c.amplitude + ((c.harmonics.getD []).map
        (fun h => c.amplitude * h.amplitudeRatio)).sum := add_le_add h1 h2
    _ ≤ c.amplitude + ((c.harmonics.getD []).map
        (fun h => c.amplitude * h.amplitudeRatio)).sum +
        (match c.noise with
          | some n => if n = 0 then 0 else n
          | none => 0) := le_add_of_nonneg_right h3

/-- The peak envelope is non-negative for admissible components. -/
lemma getPeakAmp_nonneg (c : VibrationComponent) (hc : NonnegComp c) :
    0 ≤ OrbitWindow.getPeakAmp c :=
  le_trans (abs_nonneg _) (abs_calcVal_le_peak c hc 0)

/-- The scaled waveform value stays strictly below half the canvas. -/
lemma calcVal_scaled_bound (probeX probeY c : VibrationComponent)
    (hX : NonnegComp probeX) (hc : NonnegComp c)
    (hpeak : OrbitWindow.getPeakAmp c ≤
      max (OrbitWindow.getPeakAmp probeX) (OrbitWindow.getPeakAmp probeY))
    (t : ℝ) :
    |OrbitWindow.calcVal c t * OrbitWindow.scale probeX probeY| < 200 := by
  have hM0 : (0 : ℝ) ≤
      max (OrbitWindow.getPeakAmp probeX) (OrbitWindow.getPeakAmp probeY) :=
    le_trans (getPeakAmp_nonneg probeX hX) (le_max_left _ _)
  have hv := abs_calcVal_le_peak c hc t
  rw [OrbitWindow.scale]
  by_cases hz : OrbitWindow.maxAmp probeX probeY = 0
  · rw [if_pos hz]
    have hMz : max (OrbitWindow.getPeakAmp probeX)
        (OrbitWindow.getPeakAmp probeY) = 0 := by
      rw [OrbitWindow.maxAmp] at hz
      nlinarith
    have hv0 : OrbitWindow.calcVal c t = 0 := by
      have : |OrbitWindow.calcVal c t| ≤ 0 := by
        calc |OrbitWindow.calcVal c t| ≤ OrbitWindow.getPeakAmp c := hv
          _ ≤ 0 := by rw [← hMz]; exact hpeak
      exact abs_eq_zero.mp (le_antisymm this (abs_nonneg _))
    rw [hv0]
    norm_num
  · rw [if_neg hz]
    have hMpos : (0 : ℝ) <
        max (OrbitWindow.getPeakAmp probeX) (OrbitWindow.getPeakAmp probeY) := by
      rcases lt_or_eq_of_le hM0 with h | h
      · exact h
      · exfalso
        apply hz
        rw [OrbitWindow.maxAmp, ← h]
        ring
    have hApos : (0 : ℝ) < OrbitWindow.maxAmp probeX probeY := by
      rw [OrbitWindow.maxAmp]
      nlinarith
    have hspos : (0 : ℝ) ≤ OrbitWindow.width * 0.4 /
        OrbitWindow.maxAmp probeX probeY := by
      apply div_nonneg _ (le_of_lt hApos)
      norm_num [OrbitWindow.width]
    rw [abs_mul, abs_of_nonneg hspos]
    have hstep : |OrbitWindow.calcVal c t| *
        (OrbitWindow.width * 0.4 / OrbitWindow.maxAmp probeX probeY) ≤
        max (OrbitWindow.getPeakAmp probeX) (OrbitWindow.getPeakAmp probeY) *
        (OrbitWindow.width * 0.4 / OrbitWindow.maxAmp probeX probeY) :=
      mul_le_mul_of_nonneg_right (le_trans hv hpeak) hspos
    have hfinal : max (OrbitWindow.getPeakAmp probeX)
        (OrbitWindow.getPeakAmp probeY) *
        (OrbitWindow.width * 0.4 / OrbitWindow.maxAmp probeX probeY) <
        200 := by
      rw [OrbitWindow.maxAmp, OrbitWindow.width]
      rw [show max (OrbitWindow.getPeakAmp probeX)
          (OrbitWindow.getPeakAmp probeY) *
          ((400 : ℝ) * 0.4 /
            (max (OrbitWindow.getPeakAmp probeX)
              (OrbitWindow.getPeakAmp probeY) * 1.5)) =
          400 * 0.4 / 1.5 from by
        field_simp
        ring]
      norm_num
    exact lt_of_le_of_lt hstep hfinal

/-- Claim C6: with non-negative amplitudes, amplitude ratios and noise on
both probes, every plotted sample of the Lissajous trajectory lies
strictly inside the canvas viewport (no clipping), thanks to the
conservative peak envelope and the 1.5 headroom factor. -/
theorem orbit_autoscale_no_clipping (probeX probeY : VibrationComponent)
    (hX : NonnegComp probeX) (hY : NonnegComp probeY) :
    ∀ q ∈ OrbitWindow.plottedSamples probeX probeY,
      0 < q.1 ∧ q.1 < OrbitWindow.width ∧
      0 < q.2 ∧ q.2 < OrbitWindow.height := by
  intro q hq
  obtain ⟨i, hi, rfl⟩ := List.mem_map.mp hq
  have hx := calcVal_scaled_bound probeX probeY probeX hX hX
    (le_max_left _ _) (OrbitWindow.orbitT i)
  have hy := calcVal_scaled_bound probeX probeY probeY hX hY
    (le_max_right _ _) (OrbitWindow.orbitT i)
  obtain ⟨hx1, hx2⟩ := abs_lt.mp hx
  obtain ⟨hy1, hy2⟩ := abs_lt.mp hy
  have hcX : OrbitWindow.centerX = 200 := by
    norm_num [OrbitWindow.centerX, OrbitWindow.width]
  have hcY : OrbitWindow.centerY = 200 := by
    norm_num [OrbitWindow.centerY, OrbitWindow.height]
  have hW : OrbitWindow.width = 400 := rfl
  have hH : OrbitWindow.height = 400 := rfl
  dsimp only
  rw [hcX, hcY, hW, hH]
  refine ⟨by linarith, by linarith, by linarith, by linarith⟩

/-- The spec's auto-scale test probe: amplitude 40, no harmonics, no
noise. -/
noncomputable def probe40 : VibrationComponent := ⟨40, 0, some [], some 0⟩

/-- Witness for C6 at the concrete amplitude-40 probes, sample 0. -/
theorem orbit_autoscale_no_clipping_witness :
    NonnegComp probe40 ∧
    (0 < (OrbitWindow.centerX +
        OrbitWindow.calcVal probe40 (OrbitWindow.orbitT 0) *
          OrbitWindow.scale probe40 probe40) ∧
      (OrbitWindow.centerX +
        OrbitWindow.calcVal probe40 (OrbitWindow.orbitT 0) *
          OrbitWindow.scale probe40 probe40) < OrbitWindow.width ∧
      0 < (OrbitWindow.centerY -
        OrbitWindow.calcVal probe40 (OrbitWindow.orbitT 0) *
          OrbitWindow.scale probe40 probe40) ∧
      (OrbitWindow.centerY -
        OrbitWindow.calcVal probe40 (OrbitWindow.orbitT 0) *
          OrbitWindow.scale probe40 probe40) < OrbitWindow.height) := by
  have hnn : NonnegComp probe40 := by
    refine ⟨by norm_num [probe40], ?_, by norm_num [probe40]⟩
    intro h hh
    simp [probe40] at hh
  have hmem : (OrbitWindow.centerX +
      OrbitWindow.calcVal probe40 (OrbitWindow.orbitT 0) *
        OrbitWindow.scale probe40 probe40,
      OrbitWindow.centerY -
      OrbitWindow.calcVal probe40 (OrbitWindow.orbitT 0) *
        OrbitWindow.scale probe40 probe40) ∈
      OrbitWindow.plottedSamples probe40 probe40 :=
    List.mem_map.mpr ⟨0, by simp, rfl⟩
  exact ⟨hnn,
    orbit_autoscale_no_clipping probe40 probe40 hnn hnn _ hmem⟩

end VibSim
